import Mathlib

/-!
Shallow embedding of the ABC-SMC distance and output-processing functions of
the `ixa-epi-isolation` calibration scripts, together with proofs of the
behavioural properties stated in the project's specification.

Conventions of the embedding:
* a polars `DataFrame` with a fixed schema is a `List` of row structures;
* a frame that may lack the `"t"` column (the schema-less `pl.DataFrame()`
  returned by an `except` branch) is an `Option (List _)`, `none` standing
  for the column-less frame;
* a file that may be missing on disk is an `Option` of its parsed content;
* Python's `math.log`, which raises `ValueError` on a non-positive argument,
  is `pyNegLog : ℝ → Option ℝ`; a raised exception is `none`, propagated
  through the per-row `map_elements` by `seqMap`;
* `scipy.stats.poisson.pmf k μ = exp (-μ) * μ ^ k / k !` in exact real
  arithmetic; machine counts read from CSV files are `ℕ`, times are `ℤ`.
-/

/-- Sequential `map_elements`: apply `f` to every element, propagating the
first raised exception (`none`). -/
def seqMap {α β : Type} (f : α → Option β) : List α → Option (List β)
  | [] => some []
  | a :: l =>
    match f a, seqMap f l with
    | some b, some bs => some (b :: bs)
    | _, _ => none

open Classical in
/-- Python's `-log x`: raises (`none`) exactly when `x ≤ 0`. -/
noncomputable def pyNegLog (x : ℝ) : Option ℝ :=
  if x ≤ 0 then none else some (-Real.log x)

/-- Embedding of `scipy.stats.poisson.pmf(k, μ)` in exact real arithmetic. -/
noncomputable def poissonPmf (k : ℕ) (μ : ℝ) : ℝ :=
  Real.exp (-μ) * μ ^ k / (Nat.factorial k)

namespace CallAbcsmc

/-- A row of the processed simulation summary of `scripts/call_abcsmc.py`:
columns `t` and `result_count`. -/
structure CountRow where
  t : Int
  result_count : Nat
deriving DecidableEq, Repr

/-- A row of the raw target table passed to `ode_lhood`: columns `t`,
`InfectionStatus`, `count`. -/
structure TargetRow where
  t : Int
  InfectionStatus : String
  count : Nat
deriving DecidableEq, Repr

/-- The target-side preparation inside `ode_lhood`: `min_t_target` is taken
over the whole target, then rows are filtered to `InfectionStatus ==
"Infectious"`, shifted by `min_t_target` and the `count` column renamed to
`target_count`. -/
def odeTarget (target : List TargetRow) : List (Int × Nat) :=
  let minT : Int := ((target.map (fun r => r.t)).min?).getD 0
  (target.filter (fun r => r.InfectionStatus == "Infectious")).map
    (fun r => (r.t - minT, r.count))

/-- The inner join of `ode_lhood` on column `t`: every matching
(result row, target row) pair, as `(result_count, target_count)`. -/
def odePairs (results : List CountRow) (target : List TargetRow) :
    List (Nat × Nat) :=
  (results.map (fun r =>
    ((odeTarget target).filter (fun p => p.1 == r.t)).map
      (fun p => (r.result_count, p.2)))).flatten

/-- Embedding of `ode_lhood` of `scripts/call_abcsmc.py`: `750.0` on an empty summary,
otherwise the sum over the joined rows of `-log(poisson.pmf(result_count,
target_count))`; `none` models the `ValueError` raised by `log` at `0`. -/
noncomputable def ode_lhood (results : List CountRow)
    (target : List TargetRow) : Option ℝ :=
  if results.isEmpty then some 750
  else
    (seqMap (fun p : Nat × Nat => pyNegLog (poissonPmf p.1 (p.2 : ℝ)))
      (odePairs results target)).map List.sum

/-- A row of `person_property_count.csv` as consumed by
`output_processing_function` in `scripts/call_abcsmc.py`. -/
structure PPRow where
  t : Int
  InfectionStatus : String
  count : Nat
deriving DecidableEq, Repr

/-- Polars `group_by("t").agg(col("count").sum())`, keys in order of first
appearance. -/
def groupSumInt (rows : List (Int × Nat)) : List (Int × Nat) :=
  rows.foldl (fun acc r =>
    if acc.any (fun p => p.1 == r.1) then
      acc.map (fun p => if p.1 == r.1 then (p.1, p.2 + r.2) else p)
    else acc ++ [r]) []

/-- Embedding of `output_processing_function` of `scripts/call_abcsmc.py`: filter the raw
rows to `InfectionStatus == "Infectious"`, group by `t` and sum `count` into
`result_count`. -/
def output_processing_function (raw : List PPRow) : List CountRow :=
  (groupSumInt ((raw.filter (fun r => r.InfectionStatus == "Infectious")).map
    (fun r => (r.t, r.count)))).map (fun p => ⟨p.1, p.2⟩)

/-- Spec-side construct for the exact-reproduction claim: the summary a
simulation would be processed to if it reproduced the target exactly — the
target, filtered and shifted the way `ode_lhood` itself prepares it, read
back as a results table. -/
def processedTargetSummary (target : List TargetRow) : List CountRow :=
  (odeTarget target).map (fun p => ⟨p.1, p.2⟩)

end CallAbcsmc

namespace ScenarioAbc

/-- A `t`/`count` row, the schema shared by results and target in
`distance_pois_lhood` of `scripts/scenario_abc.py`. -/
structure TRow where
  t : Int
  count : Nat
deriving DecidableEq, Repr

/-- Embedding of `poisson_lhood` of `scripts/scenario_abc.py`:
`-log(poisson.pmf(data, model + 0.001))`, the raise modelled by `Option`. -/
noncomputable def poisson_lhood (model data : Nat) : Option ℝ :=
  pyNegLog (poissonPmf data ((model : ℝ) + 0.001))

/-- Shift a table's `t` column by its own minimum, keeping `count`, as both
sides of `distance_pois_lhood` do before joining. -/
def shiftByMin (rows : List TRow) : List (Int × Nat) :=
  let m : Int := ((rows.map (fun r => r.t)).min?).getD 0
  rows.map (fun r => (r.t - m, r.count))

/-- The inner join on shifted `t` inside `distance_pois_lhood`, as
`(result_count, target_count)` pairs. -/
def dplPairs (results target : List TRow) : List (Nat × Nat) :=
  ((shiftByMin results).map (fun r =>
    ((shiftByMin target).filter (fun p => p.1 == r.1)).map
      (fun p => (r.2, p.2)))).flatten

/-- Embedding of `distance_pois_lhood` of `scripts/scenario_abc.py`: `750.0` on an empty
summary, otherwise both tables are shifted to start at `t = 0`, joined on
`t`, and the per-row `poisson_lhood` values are summed. -/
noncomputable def distance_pois_lhood (results target : List TRow) :
    Option ℝ :=
  if results.isEmpty then some 750
  else
    (seqMap (fun p : Nat × Nat => poisson_lhood p.1 p.2)
      (dplPairs results target)).map List.sum

/-- Embedding of `data_processing_fn` of `scripts/scenario_abc.py`: reads
`person_property_count.csv` and raises `FileNotFoundError` when the file is
missing (`none`). -/
def data_processing_fn (file : Option (List CallAbcsmc.PPRow)) :
    Except String (List CallAbcsmc.PPRow) :=
  match file with
  | some df => Except.ok df
  | none => Except.error "FileNotFoundError"

end ScenarioAbc

namespace RunSimulations

/-- Embedding of `return_count_only` of `scripts/run_simulations.py`: returns the raw
`person_property_count.csv` content, raising `FileNotFoundError` when the
file is missing (`none`). -/
def return_count_only (file : Option (List CallAbcsmc.PPRow)) :
    Except String (List CallAbcsmc.PPRow) :=
  match file with
  | some df => Except.ok df
  | none => Except.error "FileNotFoundError"

end RunSimulations

namespace WyomingConstantRate

/-- A target row of the Wyoming fits: columns `t`, `total_admissions`. -/
structure AdmRow where
  t : Int
  total_admissions : Nat
deriving DecidableEq, Repr

/-- A `t`/`count` summary row as produced by the Wyoming processing
functions. -/
structure TRow where
  t : Int
  count : Nat
deriving DecidableEq, Repr

/-- The inner `poisson_lhood` of `hosp_lhood` in
`wyoming-constant-rate/scripts/abc_experiment.py` (identical in
`wyoming-policies/scripts/abc.py`): `-log(poisson.pmf(model, data) + 1e-12)`. -/
noncomputable def poisson_lhood (model data : Nat) : Option ℝ :=
  pyNegLog (poissonPmf model (data : ℝ) + 1e-12)

/-- The `(count, total_admissions)` pairs produced by `hosp_lhood`: its
`how="right"` join on `t` followed by zero-filling the null `count`s. A
`none` summary models the column-less `pl.DataFrame()` (no `"t"` column), in
which case every target row is scored against a model count of `0`. -/
def hospPairs (results : Option (List TRow)) (target : List AdmRow) :
    List (Nat × Nat) :=
  match results with
  | none => target.map (fun tr => (0, tr.total_admissions))
  | some rs =>
    (target.map (fun tr =>
      let ms := rs.filter (fun r => r.t == tr.t)
      if ms.isEmpty then [(0, tr.total_admissions)]
      else ms.map (fun r => (r.count, tr.total_admissions)))).flatten

/-- Embedding of `hosp_lhood` of `wyoming-constant-rate/scripts/abc_experiment.py` and of
`wyoming-policies/scripts/abc.py`: sum of `poisson_lhood` over the joined,
zero-filled rows; when `"t"` is not among the summary's columns the target
is scored against an all-zero model. -/
noncomputable def hosp_lhood (results : Option (List TRow))
    (target : List AdmRow) : Option ℝ :=
  (seqMap (fun p : Nat × Nat => poisson_lhood p.1 p.2)
    (hospPairs results target)).map List.sum

/-- A row of `hospital_incidence_report.csv`: its admission `time` (a
float, embedded as `ℚ`). -/
structure HIRow where
  time : ℚ
deriving DecidableEq, Repr

/-- Polars `group_by` over a list of keys, aggregating `pl.len()` (row counts), keys in
order of first appearance. -/
def groupLen (keys : List Int) : List (Int × Nat) :=
  keys.foldl (fun acc k =>
    if acc.any (fun p => p.1 == k) then
      acc.map (fun p => if p.1 == k then (p.1, p.2 + 1) else p)
    else acc ++ [(k, 1)]) []

/-- Embedding of `output_processing_function` of
`wyoming-constant-rate/scripts/abc_experiment.py`: bins admissions into
weeks `⌈time / 7⌉`, counts rows per week, sets `t = week * 7 - 1`; the
`except` branch turns a missing/unreadable file into the column-less empty
frame (`none`). -/
def output_processing_function (file : Option (List HIRow)) :
    Option (List TRow) :=
  match file with
  | none => none
  | some raw =>
    some ((groupLen (raw.map (fun r => ⌈r.time / 7⌉))).map
      (fun p => ⟨p.1 * 7 - 1, p.2⟩))

end WyomingConstantRate

namespace WyomingPolicies

/-- A row of `incidence_report.csv` as consumed by
`wyoming-policies/scripts/abc.py`: columns `event`, `t_upper`, `count`. -/
structure IRRow where
  event : String
  t_upper : Int
  count : Nat
deriving DecidableEq, Repr

/-- Embedding of `output_processing_function` of `wyoming-policies/scripts/abc.py`:
filters to `event == "Hospitalized"`, groups by `t_upper` summing `count`,
and exposes the key as `t`; the `except` branch turns a missing/unreadable
file into the column-less empty frame (`none`). -/
def output_processing_function (file : Option (List IRRow)) :
    Option (List WyomingConstantRate.TRow) :=
  match file with
  | none => none
  | some raw =>
    some ((CallAbcsmc.groupSumInt
      ((raw.filter (fun r => r.event == "Hospitalized")).map
        (fun r => (r.t_upper, r.count)))).map (fun p => ⟨p.1, p.2⟩))

end WyomingPolicies

namespace RecreateSynthetic

/-- A processed hospitalization row of
`recreate-synthetic/scripts/abc.py`: columns `t`, `pediatric`, `count`
(schema of both the summary and the target). -/
structure PedRow where
  t : Int
  pediatric : Bool
  count : Nat
deriving DecidableEq, Repr

/-- The inner `poisson_lhood` of `hosp_lhood` in
`recreate-synthetic/scripts/abc.py`:
`-log(poisson.pmf(data, model + 1e-6) + 1e-12)`. -/
noncomputable def poisson_lhood (model data : Nat) : Option ℝ :=
  pyNegLog (poissonPmf data ((model : ℝ) + 1e-6) + 1e-12)

/-- The guard `"t" not in results_data.columns or results_data.is_empty()`
of `hosp_lhood` in `recreate-synthetic/scripts/abc.py`: `none` is the
column-less frame. -/
def empty_branch (results : Option (List PedRow)) : Bool :=
  match results with
  | none => true
  | some rs => rs.isEmpty

/-- The `(model_count, count)` pairs scored by `hosp_lhood`: its
`how="right"` join on `[t, pediatric]` followed by zero-filling
`model_count`; the empty branch (`"t"` missing, i.e. `none`, or an empty
summary) scores every target row against model count `0`. -/
def hospPairs (results : Option (List PedRow)) (target : List PedRow) :
    List (Nat × Nat) :=
  if empty_branch results then target.map (fun tr => (0, tr.count))
  else
    (target.map (fun tr =>
      let ms := (results.getD []).filter
        (fun r => r.t == tr.t && r.pediatric == tr.pediatric)
      if ms.isEmpty then [(0, tr.count)]
      else ms.map (fun r => (r.count, tr.count)))).flatten

/-- Embedding of `hosp_lhood` of `recreate-synthetic/scripts/abc.py`: sum of
`poisson_lhood` over the joined, zero-filled rows, with the empty/column-less
summary scored as an all-zero model. -/
noncomputable def hosp_lhood (results : Option (List PedRow))
    (target : List PedRow) : Option ℝ :=
  (seqMap (fun p : Nat × Nat => poisson_lhood p.1 p.2)
    (hospPairs results target)).map List.sum

/-- A raw row of `person_property_count.csv` as consumed by
`recreate-synthetic/scripts/abc.py`: columns `t`, `age`, `hospitalized`,
`count`. -/
structure HospRaw where
  t : Int
  age : Nat
  hospitalized : String
  count : Nat
deriving DecidableEq, Repr

/-- Polars `group_by("t", "pediatric").agg(sum("count"))`, keys in order of first
appearance. -/
def groupSumPed (rows : List ((Int × Bool) × Nat)) : List ((Int × Bool) × Nat) :=
  rows.foldl (fun acc r =>
    if acc.any (fun p => p.1 == r.1) then
      acc.map (fun p => if p.1 == r.1 then (p.1, p.2 + r.2) else p)
    else acc ++ [r]) []

/-- The transformation applied by `output_processing_function` of
`recreate-synthetic/scripts/abc.py` to a non-empty frame: add
`pediatric = age < 18`, filter `hospitalized == "true"`, group by
`(t, pediatric)` summing `count`. -/
def transform (raw : List HospRaw) : List PedRow :=
  (groupSumPed (((raw.map (fun r => (r, decide (r.age < 18)))).filter
      (fun rp => rp.1.hospitalized == "true")).map
    (fun rp => ((rp.1.t, rp.2), rp.1.count)))).map
  (fun p => ⟨p.1.1, p.1.2, p.2⟩)

/-- The sentinel `default_df` row `{"t": 0, "pediatric": False, "count": 0}`. -/
def default_df : PedRow := ⟨0, false, 0⟩

/-- Embedding of `output_processing_function` of `recreate-synthetic/scripts/abc.py`:
reads the CSV (`raise_if_empty=False`, so an empty file is the empty frame),
transforms a non-empty frame, and returns the sentinel `default_df` whenever
the result is empty. The file itself must exist: `pl.read_csv` raises
`FileNotFoundError` on a missing file, which `read_and_process` exposes. -/
def output_processing_function (raw : List HospRaw) : List PedRow :=
  let df := if raw.isEmpty then ([] : List PedRow) else transform raw
  if df.isEmpty then [default_df] else df

/-- The read step of `output_processing_function`: `pl.read_csv(fp,
raise_if_empty=False)` raises `FileNotFoundError` when the file is missing
(`none`); only an empty, readable file is tolerated. -/
def read_and_process (file : Option (List HospRaw)) :
    Except String (List PedRow) :=
  match file with
  | none => Except.error "FileNotFoundError"
  | some raw => Except.ok (output_processing_function raw)

end RecreateSynthetic

namespace AbcSmcModel

/-- Modelled from the spec: the empirical quantile used by the tolerance
scheduler. The scheduler itself lives in the external `abmwrappers` package
(`wrappers.run_abcsmc`), not under this repository's sources; the spec only
says `quantile(distances_t, configured_percentile)`, so the concrete index
convention here is one faithful reading (value at position
`⌊p · n⌋` of the ascending sort). -/
def quantile (xs : List ℚ) (p : ℚ) : ℚ :=
  let s := xs.insertionSort (fun a b => a ≤ b)
  s.getD (min (s.length - 1) (Int.toNat ⌊p * (s.length : ℚ)⌋)) 0

/-- Modelled from the spec: the end-of-step tolerance update
`tolerance_{t+1} = min(tolerance_t, quantile(distances_t, percentile))`
(implemented in the external `abmwrappers` package, not under `src/`). -/
def next_tolerance (tol : WithTop ℚ) (dists : List ℚ) (p : ℚ) : WithTop ℚ :=
  min tol (quantile dists p)

/-- Modelled from the spec: the tolerance sequence of an experiment, `⊤`
(infinity) at step 0, then updated by `next_tolerance` from each step's
distances (implemented in the external `abmwrappers` package, not under
`src/`). -/
def tolerance_seq (dists : ℕ → List ℚ) (p : ℚ) : ℕ → WithTop ℚ
  | 0 => ⊤
  | t + 1 => next_tolerance (tolerance_seq dists p t) (dists t) p

/-- Modelled from the spec: the unnormalized importance weight of an
accepted particle at step `t > 0`,
`prior_density(params) / Σ_parent (weight_parent · kernel_density(params | parent))`
(implemented in the external `abmwrappers` package, not under `src/`).
`parents` lists `(weight_parent, kernel_density(params | parent))` pairs. -/
def unnormalized_weight (prior_density : ℚ) (parents : List (ℚ × ℚ)) : ℚ :=
  prior_density / (parents.map (fun pk => pk.1 * pk.2)).sum

/-- Normalization of a weight vector to sum 1. -/
def normalize (ws : List ℚ) : List ℚ :=
  ws.map (fun w => w / ws.sum)

/-- Modelled from the spec: the reweighting of one step's accepted
particles, each given by its prior density and its parent
`(weight, kernel density)` list, then normalized over the step
(implemented in the external `abmwrappers` package, not under `src/`). -/
def reweight (particles : List (ℚ × List (ℚ × ℚ))) : List ℚ :=
  normalize (particles.map (fun pr => unnormalized_weight pr.1 pr.2))

/-- Modelled from the spec: uniform weights at step 0 over `n` accepted
particles (implemented in the external `abmwrappers` package, not under
`src/`). -/
def step0_weights (n : ℕ) : List ℚ :=
  normalize (List.replicate n 1)

end AbcSmcModel

-- basic facts about the embedded primitives

theorem AbcSmcModel.sum_map_div (l : List ℚ) (s : ℚ) :
    (l.map (fun w => w / s)).sum = l.sum / s := by
  induction l with
  | nil => simp
  | cons a l ih => simp [ih, add_div]

theorem AbcSmcModel.normalize_sum {ws : List ℚ} (h : ws.sum ≠ 0) :
    (AbcSmcModel.normalize ws).sum = 1 := by
  unfold AbcSmcModel.normalize
  rw [AbcSmcModel.sum_map_div, div_self h]

theorem seqMap_nil {α β : Type} (f : α → Option β) : seqMap f [] = some [] :=
  rfl

theorem seqMap_isSome_of_forall {α β : Type} (f : α → Option β)
    (l : List α) (h : ∀ a ∈ l, (f a).isSome) : (seqMap f l).isSome := by
  induction l with
  | nil => simp [seqMap]
  | cons a l ih =>
    have ha : (f a).isSome := h a (List.mem_cons_self a l)
    have hl : (seqMap f l).isSome := ih (fun x hx => h x (List.mem_cons_of_mem a hx))
    obtain ⟨b, hb⟩ := Option.isSome_iff_exists.mp ha
    obtain ⟨bs, hbs⟩ := Option.isSome_iff_exists.mp hl
    simp [seqMap, hb, hbs]

theorem seqMap_eq_map_of_forall {α β : Type} (f : α → Option β) (g : α → β)
    (l : List α) (h : ∀ a ∈ l, f a = some (g a)) :
    seqMap f l = some (l.map g) := by
  induction l with
  | nil => rfl
  | cons a l ih =>
    have ha := h a (List.mem_cons_self a l)
    have hl := ih (fun x hx => h x (List.mem_cons_of_mem a hx))
    simp [seqMap, ha, hl]

theorem pyNegLog_of_pos {x : ℝ} (hx : 0 < x) :
    pyNegLog x = some (-Real.log x) := by
  simp [pyNegLog, not_le.mpr hx]

theorem pyNegLog_of_nonpos {x : ℝ} (hx : x ≤ 0) : pyNegLog x = none := by
  simp [pyNegLog, hx]

theorem poissonPmf_pos {k : ℕ} {μ : ℝ} (hμ : 0 < μ) : 0 < poissonPmf k μ := by
  unfold poissonPmf
  positivity

theorem poissonPmf_zero_left (k : ℕ) (hk : k ≠ 0) : poissonPmf k 0 = 0 := by
  simp [poissonPmf, zero_pow hk]

theorem poissonPmf_zero_zero : poissonPmf 0 0 = 1 := by
  simp [poissonPmf]

theorem poissonPmf_nonneg {k : ℕ} {μ : ℝ} (hμ : 0 ≤ μ) :
    0 ≤ poissonPmf k μ := by
  unfold poissonPmf
  positivity

theorem poissonPmf_k_zero (μ : ℝ) : poissonPmf 0 μ = Real.exp (-μ) := by
  simp [poissonPmf]

theorem poissonPmf_le_one {k : ℕ} {μ : ℝ} (hμ : 0 ≤ μ) :
    poissonPmf k μ ≤ 1 := by
  have hfac : (0:ℝ) < (Nat.factorial k : ℝ) := by
    exact_mod_cast Nat.factorial_pos k
  have hb : μ ^ k / (Nat.factorial k : ℝ) ≤ Real.exp μ :=
    Real.pow_div_factorial_le_exp μ hμ k
  have hexp : 0 < Real.exp (-μ) := Real.exp_pos _
  calc poissonPmf k μ = Real.exp (-μ) * (μ ^ k / (Nat.factorial k : ℝ)) := by
        unfold poissonPmf; ring
    _ ≤ Real.exp (-μ) * Real.exp μ := by
        exact mul_le_mul_of_nonneg_left hb hexp.le
    _ = 1 := by rw [← Real.exp_add]; simp

theorem poissonPmf_lt_one {k : ℕ} {μ : ℝ} (hk : k ≠ 0) (hμ : 0 ≤ μ) :
    poissonPmf k μ < 1 := by
  have hexp : 0 < Real.exp (-μ) := Real.exp_pos _
  have hpair : (1:ℝ) + μ ^ k / (Nat.factorial k : ℝ) ≤ Real.exp μ := by
    have hsub : ({0, k} : Finset ℕ) ⊆ Finset.range (k + 1) := by
      intro i hi
      simp only [Finset.mem_insert, Finset.mem_singleton] at hi
      rcases hi with h | h <;> simp [h, Nat.lt_succ_iff]
    have hle : ∑ i ∈ ({0, k} : Finset ℕ), μ ^ i / (Nat.factorial i : ℝ) ≤
        ∑ i ∈ Finset.range (k + 1), μ ^ i / (Nat.factorial i : ℝ) :=
      Finset.sum_le_sum_of_subset_of_nonneg hsub (fun i _ _ => by positivity)
    have hpairsum : ∑ i ∈ ({0, k} : Finset ℕ), μ ^ i / (Nat.factorial i : ℝ) =
        1 + μ ^ k / (Nat.factorial k : ℝ) := by
      rw [Finset.sum_pair (Ne.symm hk)]
      simp [Nat.factorial]
    calc (1:ℝ) + μ ^ k / (Nat.factorial k : ℝ)
        = ∑ i ∈ ({0, k} : Finset ℕ), μ ^ i / (Nat.factorial i : ℝ) :=
          hpairsum.symm
      _ ≤ ∑ i ∈ Finset.range (k + 1), μ ^ i / (Nat.factorial i : ℝ) := hle
      _ ≤ Real.exp μ := Real.sum_le_exp_of_nonneg hμ (k + 1)
  have hb : μ ^ k / (Nat.factorial k : ℝ) ≤ Real.exp μ - 1 := by linarith
  calc poissonPmf k μ = Real.exp (-μ) * (μ ^ k / (Nat.factorial k : ℝ)) := by
        unfold poissonPmf; ring
    _ ≤ Real.exp (-μ) * (Real.exp μ - 1) := mul_le_mul_of_nonneg_left hb hexp.le
    _ = 1 - Real.exp (-μ) := by
        rw [mul_sub, ← Real.exp_add]; simp
    _ < 1 := by linarith

-- list helper lemmas

theorem flatten_map_singleton {α β : Type} (f : α → β) (l : List α) :
    (l.map (fun a => [f a])).flatten = l.map f := by
  induction l with
  | nil => rfl
  | cons a l ih => simp [ih]

theorem sum_pos_of_mem {l : List ℝ} (hall : ∀ x ∈ l, 0 ≤ x)
    {y : ℝ} (hy : y ∈ l) (hypos : 0 < y) : 0 < l.sum := by
  induction l with
  | nil => cases hy
  | cons a l ih =>
    rcases List.mem_cons.mp hy with h | h
    · subst h
      have : 0 ≤ l.sum :=
        List.sum_nonneg (fun x hx => hall x (List.mem_cons_of_mem _ hx))
      simpa using add_pos_of_pos_of_nonneg hypos this
    · have ha : 0 ≤ a := hall a (List.mem_cons_self a l)
      have : 0 < l.sum :=
        ih (fun x hx => hall x (List.mem_cons_of_mem _ hx)) h
      simpa using add_pos_of_nonneg_of_pos ha this

theorem const_mul_length_le_sum {l : List ℝ} {c : ℝ}
    (h : ∀ x ∈ l, c ≤ x) : c * l.length ≤ l.sum := by
  induction l with
  | nil => simp
  | cons a l ih =>
    have ha : c ≤ a := h a (List.mem_cons_self a l)
    have hl : c * l.length ≤ l.sum :=
      ih (fun x hx => h x (List.mem_cons_of_mem _ hx))
    simp only [List.length_cons, List.sum_cons]
    push_cast
    linarith

theorem filter_singleton_of_nodup :
    ∀ (l : List (Int × Nat)), (l.map Prod.fst).Nodup →
      ∀ p ∈ l, l.filter (fun q => q.1 == p.1) = [p]
  | [], _, p, hp => absurd hp (List.not_mem_nil p)
  | a :: l, hnd, p, hp => by
    have hnd' : (l.map Prod.fst).Nodup := (List.nodup_cons.mp hnd).2
    have hna : a.1 ∉ l.map Prod.fst := (List.nodup_cons.mp hnd).1
    rcases List.mem_cons.mp hp with h | h
    · subst h
      have hl : l.filter (fun q => q.1 == p.1) = [] := by
        apply List.filter_eq_nil_iff.mpr
        intro q hq hbeq
        exact hna (by
          have : q.1 = p.1 := by simpa using hbeq
          rw [← this]
          exact List.mem_map_of_mem Prod.fst hq)
      simp [List.filter_cons, hl]
    · have hne : (a.1 == p.1) = false := by
        apply beq_eq_false_iff_ne.mpr
        intro hcontra
        exact hna (hcontra ▸ List.mem_map_of_mem Prod.fst h)
      have ih := filter_singleton_of_nodup l hnd' p h
      simp [List.filter_cons, hne, ih]

-- definedness of the per-row likelihood terms

theorem scenario_poisson_lhood_eq (model data : ℕ) :
    ScenarioAbc.poisson_lhood model data =
      some (-Real.log (poissonPmf data ((model : ℝ) + 0.001))) := by
  apply pyNegLog_of_pos
  apply poissonPmf_pos
  positivity

theorem wy_poisson_lhood_eq (model data : ℕ) :
    WyomingConstantRate.poisson_lhood model data =
      some (-Real.log (poissonPmf model (data : ℝ) + 1e-12)) := by
  apply pyNegLog_of_pos
  have h0 : (0:ℝ) ≤ poissonPmf model (data : ℝ) :=
    poissonPmf_nonneg (by positivity)
  have h12 : (0:ℝ) < 1e-12 := by norm_num
  linarith

theorem rs_poisson_lhood_eq (model data : ℕ) :
    RecreateSynthetic.poisson_lhood model data =
      some (-Real.log (poissonPmf data ((model : ℝ) + 1e-6) + 1e-12)) := by
  apply pyNegLog_of_pos
  have h0 : (0:ℝ) ≤ poissonPmf data ((model : ℝ) + 1e-6) :=
    poissonPmf_nonneg (by positivity)
  have h12 : (0:ℝ) < 1e-12 := by norm_num
  linarith

theorem ode_term_isSome_of {model data : ℕ} (h : data ≠ 0 ∨ model = 0) :
    (pyNegLog (poissonPmf model (data : ℝ))).isSome := by
  have hpos : 0 < poissonPmf model (data : ℝ) := by
    rcases h with h | h
    · exact poissonPmf_pos (by exact_mod_cast Nat.pos_of_ne_zero h)
    · subst h
      rw [poissonPmf_k_zero]
      exact Real.exp_pos _
  rw [pyNegLog_of_pos hpos]
  rfl

-- claim theorems

/-- C7: for every step `t`, the next tolerance equals
`min(tolerance_t, quantile(distances_t, configured_percentile))`, the
tolerance sequence starts at infinity and is non-increasing:
`tolerance_{t+1} ≤ tolerance_t`. -/
theorem claim_C7_tolerance_monotone (dists : ℕ → List ℚ) (p : ℚ) (t : ℕ) :
    AbcSmcModel.tolerance_seq dists p 0 = ⊤ ∧
    AbcSmcModel.tolerance_seq dists p (t + 1) =
      min (AbcSmcModel.tolerance_seq dists p t)
        ((AbcSmcModel.quantile (dists t) p : WithTop ℚ)) ∧
    AbcSmcModel.tolerance_seq dists p (t + 1) ≤
      AbcSmcModel.tolerance_seq dists p t :=
  ⟨rfl, rfl, min_le_left _ _⟩

/-- C8: after reweighting, the accepted particles' weights are non-negative
and sum to 1; at step 0 the weights are uniform (`1/n`) and sum to 1. -/
theorem claim_C8_weights_normalized (particles : List (ℚ × List (ℚ × ℚ)))
    (n : ℕ) (hne : particles ≠ [])
    (hpos : ∀ pr ∈ particles,
      0 < AbcSmcModel.unnormalized_weight pr.1 pr.2)
    (hn : 0 < n) :
    (∀ w ∈ AbcSmcModel.reweight particles, 0 ≤ w) ∧
    (AbcSmcModel.reweight particles).sum = 1 ∧
    AbcSmcModel.step0_weights n = List.replicate n (1 / (n : ℚ)) ∧
    (AbcSmcModel.step0_weights n).sum = 1 := by
  have hwpos : ∀ w ∈ particles.map
      (fun pr => AbcSmcModel.unnormalized_weight pr.1 pr.2), 0 < w := by
    intro w hw
    obtain ⟨pr, hpr, rfl⟩ := List.mem_map.mp hw
    exact hpos pr hpr
  have hmne : particles.map
      (fun pr => AbcSmcModel.unnormalized_weight pr.1 pr.2) ≠ [] := by
    simpa using hne
  have hsum : 0 < (particles.map
      (fun pr => AbcSmcModel.unnormalized_weight pr.1 pr.2)).sum :=
    List.sum_pos _ hwpos hmne
  have hncast : ((n : ℚ)) ≠ 0 := by
    exact_mod_cast Nat.pos_iff_ne_zero.mp hn
  refine ⟨?_, ?_, ?_, ?_⟩
  · intro w hw
    obtain ⟨x, hx, rfl⟩ := List.mem_map.mp hw
    exact div_nonneg (hwpos x hx).le hsum.le
  · exact AbcSmcModel.normalize_sum hsum.ne'
  · unfold AbcSmcModel.step0_weights AbcSmcModel.normalize
    rw [List.sum_replicate, List.map_replicate]
    simp [nsmul_eq_mul]
  · unfold AbcSmcModel.step0_weights AbcSmcModel.normalize
    rw [List.sum_replicate, List.map_replicate, List.sum_replicate]
    simp only [nsmul_eq_mul, mul_one]
    field_simp

/-- Witness for C8 at a concrete step: one accepted particle with prior
density 1 and a single parent of weight 1 and kernel density 1, and a
step-0 population of two particles. -/
theorem claim_C8_weights_normalized_witness :
    (AbcSmcModel.reweight [((1 : ℚ), [((1 : ℚ), (1 : ℚ))])]).sum = 1 ∧
    (AbcSmcModel.step0_weights 2).sum = 1 :=
  ⟨(claim_C8_weights_normalized [((1 : ℚ), [((1 : ℚ), (1 : ℚ))])] 2
      (List.cons_ne_nil _ _)
      (fun pr hpr => by
        rcases List.mem_singleton.mp hpr with rfl
        norm_num [AbcSmcModel.unnormalized_weight])
      (by decide)).2.1,
   (claim_C8_weights_normalized [((1 : ℚ), [((1 : ℚ), (1 : ℚ))])] 2
      (List.cons_ne_nil _ _)
      (fun pr hpr => by
        rcases List.mem_singleton.mp hpr with rfl
        norm_num [AbcSmcModel.unnormalized_weight])
      (by decide)).2.2.2⟩

/-- C2 counterexample: `return_count_only` of `scripts/run_simulations.py`
raises `FileNotFoundError` on a missing per-particle output file instead of
returning an empty or sentinel summary. -/
theorem claim_C2_counterexample :
    RunSimulations.return_count_only none =
      Except.error "FileNotFoundError" :=
  rfl

/-- C2 as amended: only the two Wyoming processing functions recover from a
missing/unreadable per-particle output file with the sentinel empty frame;
`return_count_only`, `data_processing_fn` of `scripts/scenario_abc.py` and
the recreate-synthetic processor raise `FileNotFoundError` instead. -/
theorem claim_C2_amended_missing_file_behavior :
    WyomingConstantRate.output_processing_function none = none ∧
    WyomingPolicies.output_processing_function none = none ∧
    RunSimulations.return_count_only none =
      Except.error "FileNotFoundError" ∧
    ScenarioAbc.data_processing_fn none =
      Except.error "FileNotFoundError" ∧
    RecreateSynthetic.read_and_process none =
      Except.error "FileNotFoundError" :=
  ⟨rfl, rfl, rfl, rfl, rfl⟩

/-- C4: an empty summary receives the fixed penalty `750.0` from
`ode_lhood` and `distance_pois_lhood` without raising; the
recreate-synthetic `hosp_lhood` likewise never raises on the empty or
column-less summary, and assigns every such summary one and the same
target-determined penalty value. -/
theorem claim_C4_empty_summary_penalty (t1 : List CallAbcsmc.TargetRow)
    (t2 : List ScenarioAbc.TRow) (t3 : List RecreateSynthetic.PedRow) :
    CallAbcsmc.ode_lhood [] t1 = some 750 ∧
    ScenarioAbc.distance_pois_lhood [] t2 = some 750 ∧
    (RecreateSynthetic.hosp_lhood none t3).isSome ∧
    RecreateSynthetic.hosp_lhood (some []) t3 =
      RecreateSynthetic.hosp_lhood none t3 := by
  refine ⟨rfl, rfl, ?_, rfl⟩
  have hsome : (seqMap
      (fun p : Nat × Nat => RecreateSynthetic.poisson_lhood p.1 p.2)
      (RecreateSynthetic.hospPairs none t3)).isSome :=
    seqMap_isSome_of_forall _ _
      (fun a _ => by rw [rs_poisson_lhood_eq]; rfl)
  obtain ⟨l, hl⟩ := Option.isSome_iff_exists.mp hsome
  unfold RecreateSynthetic.hosp_lhood
  rw [hl]
  rfl

/-- C9: two raw simulator outputs that agree on their `Infectious` rows are
processed to the same summary by `output_processing_function` of
`scripts/call_abcsmc.py` and are assigned the same `ode_lhood` distance
against every target. -/
theorem claim_C9_noninfectious_rows_irrelevant
    (raw1 raw2 : List CallAbcsmc.PPRow)
    (target : List CallAbcsmc.TargetRow)
    (h : raw1.filter (fun r => r.InfectionStatus == "Infectious") =
      raw2.filter (fun r => r.InfectionStatus == "Infectious")) :
    CallAbcsmc.output_processing_function raw1 =
      CallAbcsmc.output_processing_function raw2 ∧
    CallAbcsmc.ode_lhood (CallAbcsmc.output_processing_function raw1)
        target =
      CallAbcsmc.ode_lhood (CallAbcsmc.output_processing_function raw2)
        target := by
  have he : CallAbcsmc.output_processing_function raw1 =
      CallAbcsmc.output_processing_function raw2 := by
    unfold CallAbcsmc.output_processing_function
    rw [h]
  exact ⟨he, by rw [he]⟩

/-- Witness for C9: a raw table holding one `Recovered` row is processed
and scored exactly like the empty raw table. -/
theorem claim_C9_noninfectious_rows_irrelevant_witness :
    CallAbcsmc.output_processing_function [⟨0, "Recovered", 5⟩] =
      CallAbcsmc.output_processing_function [] ∧
    CallAbcsmc.ode_lhood
        (CallAbcsmc.output_processing_function [⟨0, "Recovered", 5⟩]) [] =
      CallAbcsmc.ode_lhood (CallAbcsmc.output_processing_function []) [] :=
  claim_C9_noninfectious_rows_irrelevant [⟨0, "Recovered", 5⟩] [] []
    (by decide)

/-- C10: the recreate-synthetic processor never returns an empty summary:
an empty raw CSV or one without hospitalized rows yields the single
sentinel row `default_df` (`t = 0`, `pediatric = false`, `count = 0`), and
the empty branch of the paired `hosp_lhood` is never taken on its
outputs. -/
theorem claim_C10_processor_never_empty
    (raw : List RecreateSynthetic.HospRaw) :
    RecreateSynthetic.output_processing_function raw ≠ [] ∧
    (raw.filter (fun r => r.hospitalized == "true") = [] →
      RecreateSynthetic.output_processing_function raw =
        [RecreateSynthetic.default_df]) ∧
    RecreateSynthetic.empty_branch
      (some (RecreateSynthetic.output_processing_function raw)) = false := by
  have key : ∀ df : List RecreateSynthetic.PedRow,
      (if df.isEmpty then [RecreateSynthetic.default_df] else df) ≠ [] := by
    intro df
    cases df with
    | nil => simp
    | cons a l => simp
  have hne : RecreateSynthetic.output_processing_function raw ≠ [] := by
    unfold RecreateSynthetic.output_processing_function
    exact key (if raw.isEmpty then [] else RecreateSynthetic.transform raw)
  refine ⟨hne, ?_, ?_⟩
  · intro hfilter
    have htrans : RecreateSynthetic.transform raw = [] := by
      unfold RecreateSynthetic.transform
      rw [List.filter_map]
      have hcomp : raw.filter
          ((fun rp : RecreateSynthetic.HospRaw × Bool =>
            rp.1.hospitalized == "true") ∘
            (fun r : RecreateSynthetic.HospRaw =>
              (r, decide (r.age < 18)))) = [] := hfilter
      rw [hcomp]
      rfl
    unfold RecreateSynthetic.output_processing_function
    rcases raw with _ | ⟨a, l⟩
    · rfl
    · simp [htrans]
  · cases hout : RecreateSynthetic.output_processing_function raw with
    | nil => exact absurd hout hne
    | cons a l => rfl

/-- Witness for C10: a raw table with one non-hospitalized row is processed
to the sentinel summary. -/
theorem claim_C10_processor_never_empty_witness :
    RecreateSynthetic.output_processing_function [⟨1, 20, "false", 3⟩] =
      [RecreateSynthetic.default_df] :=
  (claim_C10_processor_never_empty [⟨1, 20, "false", 3⟩]).2.1 (by decide)

theorem map_sum_isSome {o : Option (List ℝ)} (h : o.isSome) :
    (o.map List.sum).isSome := by
  obtain ⟨l, hl⟩ := Option.isSome_iff_exists.mp h
  rw [hl]
  rfl

/-- C1 counterexample: `ode_lhood` raises (`ValueError` from `log 0`) on a
reachable summary/target pair — a joined row with `result_count = 1` and
`target_count = 0`, where `poisson.pmf(1, 0) = 0`. -/
theorem claim_C1_counterexample :
    CallAbcsmc.ode_lhood [⟨0, 1⟩] [⟨0, "Infectious", 0⟩] = none := by
  have hterm : pyNegLog (poissonPmf 1 (0 : ℝ)) = none := by
    rw [poissonPmf_zero_left 1 one_ne_zero]
    exact pyNegLog_of_nonpos le_rfl
  have hpairs : CallAbcsmc.odePairs [⟨0, 1⟩] [⟨0, "Infectious", 0⟩] =
      [(1, 0)] := by decide
  show (seqMap (fun p : Nat × Nat => pyNegLog (poissonPmf p.1 (p.2 : ℝ)))
      (CallAbcsmc.odePairs [⟨0, 1⟩] [⟨0, "Infectious", 0⟩])).map List.sum =
    none
  rw [hpairs]
  simp [seqMap, hterm]

/-- C1 as amended: `distance_pois_lhood` and both `hosp_lhood` variants are
defined (never raise, finite) on every summary/target pair; `ode_lhood` is
defined only when every joined count pair has a nonzero target count or a
zero model count — otherwise its inner `log(poisson.pmf(model, data))` is
`log 0` and raises. -/
theorem claim_C1_amended_definedness
    (results : List CallAbcsmc.CountRow)
    (target : List CallAbcsmc.TargetRow)
    (results2 target2 : List ScenarioAbc.TRow)
    (results3 : Option (List WyomingConstantRate.TRow))
    (target3 : List WyomingConstantRate.AdmRow)
    (results4 : Option (List RecreateSynthetic.PedRow))
    (target4 : List RecreateSynthetic.PedRow)
    (h : ∀ p ∈ CallAbcsmc.odePairs results target, p.2 ≠ 0 ∨ p.1 = 0) :
    (ScenarioAbc.distance_pois_lhood results2 target2).isSome ∧
    (WyomingConstantRate.hosp_lhood results3 target3).isSome ∧
    (RecreateSynthetic.hosp_lhood results4 target4).isSome ∧
    (CallAbcsmc.ode_lhood results target).isSome := by
  refine ⟨?_, ?_, ?_, ?_⟩
  · unfold ScenarioAbc.distance_pois_lhood
    split
    · rfl
    · exact map_sum_isSome (seqMap_isSome_of_forall _ _
        (fun a _ => by rw [scenario_poisson_lhood_eq]; rfl))
  · unfold WyomingConstantRate.hosp_lhood
    exact map_sum_isSome (seqMap_isSome_of_forall _ _
      (fun a _ => by rw [wy_poisson_lhood_eq]; rfl))
  · unfold RecreateSynthetic.hosp_lhood
    exact map_sum_isSome (seqMap_isSome_of_forall _ _
      (fun a _ => by rw [rs_poisson_lhood_eq]; rfl))
  · unfold CallAbcsmc.ode_lhood
    split
    · rfl
    · exact map_sum_isSome (seqMap_isSome_of_forall _ _
        (fun a ha => ode_term_isSome_of (h a ha)))

/-- Witness for C1 as amended, at empty summaries and targets. -/
theorem claim_C1_amended_definedness_witness :
    (ScenarioAbc.distance_pois_lhood [] []).isSome ∧
    (WyomingConstantRate.hosp_lhood none []).isSome ∧
    (RecreateSynthetic.hosp_lhood none []).isSome ∧
    (CallAbcsmc.ode_lhood [] []).isSome :=
  claim_C1_amended_definedness [] [] [] [] none [] none [] (by decide)

theorem ode_lhood_exact_unit :
    CallAbcsmc.ode_lhood [⟨0, 1⟩] [⟨0, "Infectious", 1⟩] = some 1 := by
  have hpmf : poissonPmf 1 (1 : ℝ) = Real.exp (-1) := by
    simp [poissonPmf, Nat.factorial]
  have hterm : pyNegLog (poissonPmf 1 (1 : ℝ)) = some 1 := by
    rw [hpmf, pyNegLog_of_pos (Real.exp_pos _), Real.log_exp]
    norm_num
  have hpairs : CallAbcsmc.odePairs [⟨0, 1⟩] [⟨0, "Infectious", 1⟩] =
      [(1, 1)] := by decide
  show (seqMap (fun p : Nat × Nat => pyNegLog (poissonPmf p.1 (p.2 : ℝ)))
      (CallAbcsmc.odePairs [⟨0, 1⟩] [⟨0, "Infectious", 1⟩])).map List.sum =
    some 1
  rw [hpairs]
  simp [seqMap, hterm]

/-- C3 counterexample: a summary that exactly equals the processed target
(one `Infectious` row with count 1, exactly what the processor yields on the
same raw data) gets distance `1 = -log(pmf(1,1))`, not `0`. -/
theorem claim_C3_counterexample :
    CallAbcsmc.ode_lhood [⟨0, 1⟩] [⟨0, "Infectious", 1⟩] = some 1 ∧
    CallAbcsmc.output_processing_function [⟨0, "Infectious", 1⟩] =
      [⟨0, 1⟩] ∧
    (1 : ℝ) ≠ 0 :=
  ⟨ode_lhood_exact_unit, by decide, by norm_num⟩

/-- C3 as amended: when the summary exactly equals the processed target
(time points pairwise distinct and at least one row), `ode_lhood` returns
the self negative log-likelihood `Σ -log(pmf(c, c))`; that value is
non-negative, is `0` when every matched count is `0`, and is strictly
positive as soon as one matched count is nonzero — exact reproduction does
not in general give distance `0`. -/
theorem claim_C3_amended (target : List CallAbcsmc.TargetRow)
    (hnodup : ((CallAbcsmc.odeTarget target).map Prod.fst).Nodup)
    (hne : CallAbcsmc.odeTarget target ≠ []) :
    CallAbcsmc.ode_lhood (CallAbcsmc.processedTargetSummary target) target =
      some (((CallAbcsmc.odeTarget target).map
        (fun p => -Real.log (poissonPmf p.2 (p.2 : ℝ)))).sum) ∧
    0 ≤ ((CallAbcsmc.odeTarget target).map
      (fun p => -Real.log (poissonPmf p.2 (p.2 : ℝ)))).sum ∧
    ((∀ p ∈ CallAbcsmc.odeTarget target, p.2 = 0) →
      CallAbcsmc.ode_lhood (CallAbcsmc.processedTargetSummary target)
        target = some 0) ∧
    ((∃ p ∈ CallAbcsmc.odeTarget target, p.2 ≠ 0) →
      0 < ((CallAbcsmc.odeTarget target).map
        (fun p => -Real.log (poissonPmf p.2 (p.2 : ℝ)))).sum) := by
  have hposall : ∀ c : ℕ, 0 < poissonPmf c (c : ℝ) := by
    intro c
    cases Nat.eq_zero_or_pos c with
    | inl h =>
        subst h
        rw [Nat.cast_zero, poissonPmf_k_zero]
        exact Real.exp_pos _
    | inr h => exact poissonPmf_pos (by exact_mod_cast h)
  have hcongr : ∀ p ∈ CallAbcsmc.odeTarget target,
      ((CallAbcsmc.odeTarget target).filter (fun q => q.1 == p.1)).map
        (fun q => (p.2, q.2)) = [(p.2, p.2)] := by
    intro p hp
    rw [filter_singleton_of_nodup _ hnodup p hp]
    rfl
  have hpairs : CallAbcsmc.odePairs
      (CallAbcsmc.processedTargetSummary target) target =
      (CallAbcsmc.odeTarget target).map (fun p => (p.2, p.2)) := by
    unfold CallAbcsmc.odePairs CallAbcsmc.processedTargetSummary
    rw [List.map_map]
    calc ((CallAbcsmc.odeTarget target).map (fun p =>
            ((CallAbcsmc.odeTarget target).filter (fun q => q.1 == p.1)).map
              (fun q => (p.2, q.2)))).flatten
        = ((CallAbcsmc.odeTarget target).map
            (fun p => [(p.2, p.2)])).flatten := by
          rw [List.map_congr_left hcongr]
      _ = (CallAbcsmc.odeTarget target).map (fun p => (p.2, p.2)) :=
          flatten_map_singleton _ _
  have hne2 : CallAbcsmc.processedTargetSummary target ≠ [] := by
    unfold CallAbcsmc.processedTargetSummary
    simpa using hne
  have hmain : CallAbcsmc.ode_lhood
      (CallAbcsmc.processedTargetSummary target) target =
      some (((CallAbcsmc.odeTarget target).map
        (fun p => -Real.log (poissonPmf p.2 (p.2 : ℝ)))).sum) := by
    unfold CallAbcsmc.ode_lhood
    rw [if_neg (by simpa [List.isEmpty_iff] using hne2)]
    rw [hpairs]
    rw [seqMap_eq_map_of_forall _
      (fun q : Nat × Nat => -Real.log (poissonPmf q.1 (q.2 : ℝ))) _
      (fun a ha => by
        obtain ⟨p, hp, rfl⟩ := List.mem_map.mp ha
        exact pyNegLog_of_pos (hposall p.2))]
    rw [Option.map_some', List.map_map]
    rfl
  have hterms_nonneg : ∀ x ∈ (CallAbcsmc.odeTarget target).map
      (fun p => -Real.log (poissonPmf p.2 (p.2 : ℝ))), 0 ≤ x := by
    intro x hx
    obtain ⟨p, hp, rfl⟩ := List.mem_map.mp hx
    have h1 : poissonPmf p.2 ((p.2 : ℕ) : ℝ) ≤ 1 :=
      poissonPmf_le_one (by positivity)
    have h0 : 0 < poissonPmf p.2 ((p.2 : ℕ) : ℝ) := hposall p.2
    have hlog := Real.log_nonpos h0.le h1
    linarith
  refine ⟨hmain, List.sum_nonneg hterms_nonneg, ?_, ?_⟩
  · intro hall
    rw [hmain]
    congr 1
    have hconst : (CallAbcsmc.odeTarget target).map
        (fun p => -Real.log (poissonPmf p.2 (p.2 : ℝ))) =
        (CallAbcsmc.odeTarget target).map (fun _ => (0 : ℝ)) := by
      apply List.map_congr_left
      intro p hp
      rw [hall p hp, Nat.cast_zero, poissonPmf_zero_zero, Real.log_one]
      norm_num
    rw [hconst]
    simp
  · rintro ⟨p, hp, hpne⟩
    have h0 : 0 < poissonPmf p.2 ((p.2 : ℕ) : ℝ) := hposall p.2
    have h1 : poissonPmf p.2 ((p.2 : ℕ) : ℝ) < 1 :=
      poissonPmf_lt_one hpne (by positivity)
    have hlog := Real.log_neg h0 h1
    have hterm : 0 < -Real.log (poissonPmf p.2 ((p.2 : ℕ) : ℝ)) := by
      linarith
    exact sum_pos_of_mem hterms_nonneg
      (List.mem_map_of_mem
        (fun q : Int × Nat => -Real.log (poissonPmf q.2 (q.2 : ℝ))) hp)
      hterm

/-- Witness for C3 as amended: a target with a single `Infectious` row of
count 0, reproduced exactly, gets distance 0. -/
theorem claim_C3_amended_witness :
    CallAbcsmc.ode_lhood
        (CallAbcsmc.processedTargetSummary [⟨0, "Infectious", 0⟩])
        [⟨0, "Infectious", 0⟩] = some 0 :=
  (claim_C3_amended [⟨0, "Infectious", 0⟩] (by decide) (by decide)).2.2.1
    (by decide)

/-- C5 counterexample: a non-empty summary with time index disjoint from
the target's gets distance `0` from `ode_lhood` — the minimal possible
value, not a worst-case penalty (the same target scores another summary at
`1 > 0`). -/
theorem claim_C5_counterexample :
    CallAbcsmc.ode_lhood [⟨100, 5⟩] [⟨0, "Infectious", 1⟩] = some 0 ∧
    CallAbcsmc.ode_lhood [⟨0, 1⟩] [⟨0, "Infectious", 1⟩] = some 1 ∧
    (0 : ℝ) < 1 := by
  refine ⟨?_, ode_lhood_exact_unit, by norm_num⟩
  have hpairs : CallAbcsmc.odePairs [⟨100, 5⟩] [⟨0, "Infectious", 1⟩] =
      [] := by decide
  show (seqMap (fun p : Nat × Nat => pyNegLog (poissonPmf p.1 (p.2 : ℝ)))
      (CallAbcsmc.odePairs [⟨100, 5⟩] [⟨0, "Infectious", 1⟩])).map List.sum =
    some 0
  rw [hpairs]
  simp [seqMap]

/-- C5 as amended: on a summary whose time index is disjoint from the
target's, the Wyoming `hosp_lhood` (right join, zero-filled) indeed scores
the full worst-case all-zero-model penalty — exactly the value it gives the
column-less frame — but `ode_lhood` (inner join) returns the sum over zero
joined rows, i.e. the minimal distance `0`. -/
theorem claim_C5_amended
    (results : List CallAbcsmc.CountRow)
    (target : List CallAbcsmc.TargetRow)
    (rs : List WyomingConstantRate.TRow)
    (tgt : List WyomingConstantRate.AdmRow)
    (hne : results ≠ [])
    (hdisj : CallAbcsmc.odePairs results target = [])
    (hdisj2 : ∀ r ∈ rs, ∀ tr ∈ tgt, r.t ≠ tr.t) :
    CallAbcsmc.ode_lhood results target = some 0 ∧
    WyomingConstantRate.hosp_lhood (some rs) tgt =
      WyomingConstantRate.hosp_lhood none tgt := by
  constructor
  · unfold CallAbcsmc.ode_lhood
    rw [if_neg (by simpa [List.isEmpty_iff] using hne)]
    rw [hdisj]
    simp [seqMap]
  · have hfilters : ∀ tr ∈ tgt, rs.filter (fun r => r.t == tr.t) = [] := by
      intro tr htr
      apply List.filter_eq_nil_iff.mpr
      intro r hr
      simpa using hdisj2 r hr tr htr
    have hstep : tgt.map (fun tr =>
          let ms := rs.filter (fun r => r.t == tr.t)
          if ms.isEmpty then [((0 : ℕ), tr.total_admissions)]
          else ms.map (fun r => (r.count, tr.total_admissions))) =
        tgt.map (fun tr => [((0 : ℕ), tr.total_admissions)]) :=
      List.map_congr_left (fun tr htr => by simp [hfilters tr htr])
    have hpairs : WyomingConstantRate.hospPairs (some rs) tgt =
        WyomingConstantRate.hospPairs none tgt := by
      unfold WyomingConstantRate.hospPairs
      calc (tgt.map (fun tr =>
              let ms := rs.filter (fun r => r.t == tr.t)
              if ms.isEmpty then [((0 : ℕ), tr.total_admissions)]
              else ms.map (fun r => (r.count, tr.total_admissions)))).flatten
          = (tgt.map (fun tr =>
              [((0 : ℕ), tr.total_admissions)])).flatten := by
            rw [hstep]
        _ = tgt.map (fun tr => ((0 : ℕ), tr.total_admissions)) :=
            flatten_map_singleton _ _
    unfold WyomingConstantRate.hosp_lhood
    rw [hpairs]

/-- Witness for C5 as amended, on a one-row summary at `t = 100` against a
one-row target at `t = 0`. -/
theorem claim_C5_amended_witness :
    CallAbcsmc.ode_lhood [⟨100, 5⟩] [⟨10, "Infectious", 2⟩] = some 0 ∧
    WyomingConstantRate.hosp_lhood (some [⟨100, 5⟩]) [⟨0, 3⟩] =
      WyomingConstantRate.hosp_lhood none [⟨0, 3⟩] :=
  claim_C5_amended [⟨100, 5⟩] [⟨10, "Infectious", 2⟩] [⟨100, 5⟩] [⟨0, 3⟩]
    (by decide) (by decide) (by decide)

/-- C6 counterexample: with a model count and a target count both `0`, the
Poisson pmf is `1`, so the Wyoming `hosp_lhood` term is
`-log(1 + 1e-12) < 0`: the returned distance is negative, not `≥ 0`. -/
theorem claim_C6_counterexample :
    WyomingConstantRate.hosp_lhood (some [⟨0, 0⟩]) [⟨0, 0⟩] =
      some (-Real.log (1 + 1e-12)) ∧
    -Real.log (1 + 1e-12) < 0 := by
  constructor
  · have hpairs : WyomingConstantRate.hospPairs (some [⟨0, 0⟩]) [⟨0, 0⟩] =
        [(0, 0)] := by decide
    have hterm : WyomingConstantRate.poisson_lhood 0 0 =
        some (-Real.log (1 + 1e-12)) := by
      rw [wy_poisson_lhood_eq]
      rw [Nat.cast_zero, poissonPmf_zero_zero]
    unfold WyomingConstantRate.hosp_lhood
    rw [hpairs]
    simp [seqMap, hterm]
  · have hlog : 0 < Real.log (1 + 1e-12) := Real.log_pos (by norm_num)
    linarith

/-- C6 as amended: every distance `v` returned by the Wyoming `hosp_lhood`
is bounded below by `-(n · log(1 + 1e-12))`, with `n` the number of scored
(joined, zero-filled) rows: the distance can dip below `0` only by the
`1e-12` stabilizer added to the pmf, by at most `log(1 + 1e-12)` per row. -/
theorem claim_C6_amended (results : Option (List WyomingConstantRate.TRow))
    (target : List WyomingConstantRate.AdmRow) (v : ℝ)
    (h : WyomingConstantRate.hosp_lhood results target = some v) :
    -(((WyomingConstantRate.hospPairs results target).length : ℝ) *
      Real.log (1 + 1e-12)) ≤ v := by
  have hseq : seqMap
      (fun p : Nat × Nat => WyomingConstantRate.poisson_lhood p.1 p.2)
      (WyomingConstantRate.hospPairs results target) =
      some ((WyomingConstantRate.hospPairs results target).map
        (fun p => -Real.log (poissonPmf p.1 (p.2 : ℝ) + 1e-12))) :=
    seqMap_eq_map_of_forall _ _ _ (fun a _ => wy_poisson_lhood_eq a.1 a.2)
  have hv : v = ((WyomingConstantRate.hospPairs results target).map
      (fun p => -Real.log (poissonPmf p.1 (p.2 : ℝ) + 1e-12))).sum := by
    have h' := h
    unfold WyomingConstantRate.hosp_lhood at h'
    rw [hseq] at h'
    simpa using h'.symm
  have hbound : ∀ x ∈ (WyomingConstantRate.hospPairs results target).map
      (fun p => -Real.log (poissonPmf p.1 (p.2 : ℝ) + 1e-12)),
      -Real.log (1 + 1e-12) ≤ x := by
    intro x hx
    obtain ⟨p, hp, rfl⟩ := List.mem_map.mp hx
    have h0 : (0 : ℝ) < poissonPmf p.1 ((p.2 : ℕ) : ℝ) + 1e-12 := by
      have := poissonPmf_nonneg (k := p.1) (μ := ((p.2 : ℕ) : ℝ))
        (by positivity)
      have h12 : (0 : ℝ) < 1e-12 := by norm_num
      linarith
    have h1 : poissonPmf p.1 ((p.2 : ℕ) : ℝ) + 1e-12 ≤ 1 + 1e-12 := by
      have := poissonPmf_le_one (k := p.1) (μ := ((p.2 : ℕ) : ℝ))
        (by positivity)
      linarith
    have hlog := Real.log_le_log h0 h1
    simp only [neg_le_neg_iff]
    exact hlog
  have hlen := const_mul_length_le_sum hbound
  rw [List.length_map] at hlen
  rw [hv]
  calc -(((WyomingConstantRate.hospPairs results target).length : ℝ) *
        Real.log (1 + 1e-12))
      = -Real.log (1 + 1e-12) *
        ((WyomingConstantRate.hospPairs results target).length : ℝ) := by
        ring
    _ ≤ ((WyomingConstantRate.hospPairs results target).map
        (fun p => -Real.log (poissonPmf p.1 (p.2 : ℝ) + 1e-12))).sum := hlen

/-- Witness for C6 as amended, at the empty summary and empty target. -/
theorem claim_C6_amended_witness :
    -(((WyomingConstantRate.hospPairs (some []) []).length : ℝ) *
      Real.log (1 + 1e-12)) ≤ 0 :=
  claim_C6_amended (some []) [] 0 rfl
